import Mathlib

/-! CosmoScout VR: node editor and graphics set-up

A shallow embedding of

* `plugins/csl-node-editor/src/Node.hpp` (class `Node`),
* `src/cs-graphics/SetupGLNode.cpp` (`SetupGLNode::Do`, `SetupGLNode::GetBoundingBox`),

together with a model of the node graph engine (NodeGraph, Scheduler,
MessageRouter) as the specification describes it; Node.hpp only forward-declares
`NodeGraph` and `Connection`.

Definitions come first, the theorems follow.
-/

set_option autoImplicit false

/-! ## Part 1: definitions -/

namespace csl.nodeeditor

/-- State of a `Node` object, the private members of Node.hpp: `mID` is the
`uint32_t` identifier, `mGraph` the shared pointer to the owning graph, given by
the handle of that graph (`none` is the null pointer). -/
structure Node where
  mID : Nat
  mGraph : Option Nat
deriving DecidableEq, Repr

/-- What a member function of a node can see and touch: the node object itself
and the messages that were handed to `sendMessage` so far, each with the
identifier of the sending node. -/
structure NodeEnv where
  self : Node
  outbox : List (Nat × String)
deriving DecidableEq, Repr

/-- Source: `virtual void process(){};` (Node.hpp, line 28). The body is empty. -/
def Node.process (w : NodeEnv) : NodeEnv := w

/-- Source: `virtual void onMessage(std::string const& data){};` (Node.hpp, line 30).
The body is empty and the argument is not used. -/
def Node.onMessage (_data : String) (w : NodeEnv) : NodeEnv := w

/-- The two virtual member functions of `Node`: a class derived from `Node` is
given by the bodies it dispatches to. -/
structure NodeClass where
  process : NodeEnv → NodeEnv
  onMessage : String → NodeEnv → NodeEnv

/-- The base class: both virtual functions are the ones of Node.hpp. -/
def Node.baseClass : NodeClass :=
  { process := Node.process, onMessage := Node.onMessage }

/-- A derived class that overrides `onMessage` only (it forwards the payload to
the remote side) and inherits `process`. -/
def echoNodeClass : NodeClass :=
  { process := Node.process
    onMessage := fun data w => { w with outbox := w.outbox ++ [(w.self.mID, data)] } }

/-- A derived class that overrides `process` only (it reports each run) and
inherits `onMessage`. -/
def tickNodeClass : NodeClass :=
  { process := fun w => { w with outbox := w.outbox ++ [(w.self.mID, "tick")] }
    onMessage := Node.onMessage }

end csl.nodeeditor

namespace cs.graphics

/-! ### OpenGL state touched by `SetupGLNode::Do` -/

/-- OpenGL enumerant `GL_GEQUAL`. -/
def GL_GEQUAL : Nat := 0x0206
/-- OpenGL bit `GL_DEPTH_BUFFER_BIT`. -/
def GL_DEPTH_BUFFER_BIT : Nat := 0x00000100
/-- OpenGL enumerant `GL_CULL_FACE`. -/
def GL_CULL_FACE : Nat := 0x0B44
/-- OpenGL enumerant `GL_BACK`. -/
def GL_BACK : Nat := 0x0405
/-- OpenGL enumerant `GL_CW`. -/
def GL_CW : Nat := 0x0900
/-- OpenGL enumerant `GL_CCW`, the initial front-face winding. -/
def GL_CCW : Nat := 0x0901
/-- OpenGL enumerant `GL_LESS`, the initial depth function. -/
def GL_LESS : Nat := 0x0201

/-- The part of the OpenGL context that the calls of `SetupGLNode::Do` read or
write: the depth function, the clear value of the depth buffer, the depth write
mask, the depth buffer itself (a floating-point buffer, one value per pixel),
the enabled capabilities, the culled face and the front-face winding. Depth
values are rationals; the only one the code names is `-1.0f`. -/
structure GLState where
  depthFunc : Nat
  clearDepth : ℚ
  depthWriteMask : Bool
  depthBuffer : List ℚ
  capabilities : List Nat
  cullFaceMode : Nat
  frontFace : Nat
deriving DecidableEq

/-- OpenGL `glDepthFunc(func)`: sets the depth comparison function. -/
def glDepthFunc (func : Nat) (s : GLState) : GLState := { s with depthFunc := func }

/-- OpenGL clamping of a `GLclampd` value to the range `[0, 1]`. -/
def clampd (d : ℚ) : ℚ := if d < 0 then 0 else if 1 < d then 1 else d

/-- OpenGL `glClearDepth(GLclampd depth)`: sets the clear value of the depth
buffer; the value is clamped to the range `[0, 1]` when it is specified. -/
def glClearDepth (depth : ℚ) (s : GLState) : GLState := { s with clearDepth := clampd depth }

/-- OpenGL `glClear(mask)`: when the mask holds `GL_DEPTH_BUFFER_BIT` and depth
writes are enabled, every pixel of the depth buffer gets the clear value. -/
def glClear (mask : Nat) (s : GLState) : GLState :=
  if mask &&& GL_DEPTH_BUFFER_BIT = 0 then s
  else if s.depthWriteMask then
    { s with depthBuffer := s.depthBuffer.map (fun _ => s.clearDepth) }
  else s

/-- OpenGL `glEnable(cap)`: the capability is enabled afterwards. -/
def glEnable (cap : Nat) (s : GLState) : GLState :=
  if cap ∈ s.capabilities then s else { s with capabilities := cap :: s.capabilities }

/-- OpenGL `glCullFace(mode)`: chooses the faces that are culled. -/
def glCullFace (mode : Nat) (s : GLState) : GLState := { s with cullFaceMode := mode }

/-- OpenGL `glFrontFace(mode)`: chooses the winding of front faces. -/
def glFrontFace (mode : Nat) (s : GLState) : GLState := { s with frontFace := mode }

/-- Source: `SetupGLNode::Do` (SetupGLNode.cpp, lines 17 to 26): six OpenGL
calls in this order, then `return true`. -/
def SetupGLNode.Do (s : GLState) : Bool × GLState :=
  let s := glDepthFunc GL_GEQUAL s
  let s := glClearDepth (-1) s
  let s := glClear GL_DEPTH_BUFFER_BIT s
  let s := glEnable GL_CULL_FACE s
  let s := glCullFace GL_BACK s
  let s := glFrontFace GL_CW s
  (true, s)

/-- The initial state of an OpenGL context with a depth buffer of two pixels:
depth function `GL_LESS`, clear depth 1, depth writes on, nothing enabled,
`GL_BACK` culled, front faces counter-clockwise. -/
def initialGLState : GLState :=
  { depthFunc := GL_LESS
    clearDepth := 1
    depthWriteMask := true
    depthBuffer := [1, 1]
    capabilities := []
    cullFaceMode := GL_BACK
    frontFace := GL_CCW }

/-! ### Bounding box written by `SetupGLNode::GetBoundingBox` -/

/-- An IEEE-754 binary32 value (C++ `float`), given by its bit pattern. -/
structure Float32 where
  bits : Nat
deriving DecidableEq, Repr

/-- Sign bit of a binary32 value. -/
def Float32.sign (f : Float32) : Nat := f.bits / 2 ^ 31 % 2
/-- Biased exponent (8 bits) of a binary32 value. -/
def Float32.exponent (f : Float32) : Nat := f.bits / 2 ^ 23 % 2 ^ 8
/-- Fraction field (23 bits) of a binary32 value. -/
def Float32.fraction (f : Float32) : Nat := f.bits % 2 ^ 23

/-- A binary32 value is finite when its exponent field is not all ones. -/
def Float32.isFinite (f : Float32) : Bool := f.bits < 2 ^ 32 && f.exponent != 255

/-- Magnitude of a finite binary32 value in units of `2^-149`: a subnormal
(exponent field 0) is its fraction, a normal number is `(2^23 + fraction) * 2^(exponent - 1)`. -/
def Float32.magnitude (f : Float32) : Nat :=
  if f.exponent = 0 then f.fraction else (2 ^ 23 + f.fraction) * 2 ^ (f.exponent - 1)

/-- Value of a finite binary32 number in units of `2^-149`. -/
def Float32.scaled (f : Float32) : Int :=
  if f.sign = 0 then (f.magnitude : Int) else - (f.magnitude : Int)

/-- C++ `std::numeric_limits<float>::max()`, bit pattern `0x7F7FFFFF`. -/
def numeric_limits_float_max : Float32 := ⟨0x7F7FFFFF⟩

/-- C++ `std::numeric_limits<float>::lowest()`, bit pattern `0xFF7FFFFF`. -/
def numeric_limits_float_lowest : Float32 := ⟨0xFF7FFFFF⟩

/-- ViSTA `VistaBoundingBox`: the minimum and the maximum corner, three floats each. -/
structure VistaBoundingBox where
  m_v3Min : Float32 × Float32 × Float32
  m_v3Max : Float32 × Float32 × Float32
deriving DecidableEq, Repr

/-- ViSTA `VistaBoundingBox::SetBounds(const float min[3], const float max[3])`:
copies the two corners into the box. -/
def VistaBoundingBox.SetBounds (fMin fMax : Float32 × Float32 × Float32)
    (_box : VistaBoundingBox) : VistaBoundingBox :=
  { m_v3Min := fMin, m_v3Max := fMax }

/-- Source: `SetupGLNode::GetBoundingBox` (SetupGLNode.cpp, lines 30 to 40). -/
def SetupGLNode.GetBoundingBox (oBoundingBox : VistaBoundingBox) : Bool × VistaBoundingBox :=
  let min := numeric_limits_float_lowest
  let max := numeric_limits_float_max
  let fMin := (min, min, min)
  let fMax := (max, max, max)
  let oBoundingBox := oBoundingBox.SetBounds fMin fMax
  (true, oBoundingBox)

end cs.graphics

/-! ### The node graph engine

The classes `NodeGraph` and `Connection` are only forward-declared in Node.hpp;
the engine below follows sections 3, 4.1, 4.2, 4.4 and 7 of the specification. -/

deriving instance DecidableEq for Except

namespace csl.nodeeditor

/-- Modelled from the spec: the direction of a socket (section 3); the socket
types are not in Node.hpp. -/
inductive Direction where
  | input
  | output
deriving DecidableEq, Repr

/-- Modelled from the spec: a socket as the registry describes it (section 3):
a name, a direction and a declared data-kind tag. -/
structure SocketSchema where
  name : String
  direction : Direction
  kind : String
deriving DecidableEq, Repr

/-- Modelled from the spec: an entry of the NodeRegistry (section 2), the
metadata of one node type; the factory is left out, a node instance is the
record `NodeEntry` below. -/
structure NodeType where
  typeId : String
  sockets : List SocketSchema
deriving DecidableEq, Repr

/-- Modelled from the spec: the NodeRegistry (section 2), node types by type identifier. -/
abbrev NodeRegistry := List NodeType

/-- Modelled from the spec: registry lookup by type identifier. -/
def NodeRegistry.lookup (r : NodeRegistry) (typeId : String) : Option NodeType :=
  r.find? (fun t => t.typeId == typeId)

/-- Modelled from the spec: a node as the graph stores it (section 3): the
identifier the graph assigned, the type identifier and the node's data. -/
structure NodeEntry where
  id : Nat
  typeId : String
  data : Option String
deriving DecidableEq, Repr

/-- Modelled from the spec: a Connection (section 3),
`(sourceNodeId, sourceSocket) → (targetNodeId, targetSocket)`, with the
identifier that `removeConnection` takes. The class is only forward-declared in
Node.hpp. -/
structure Connection where
  id : Nat
  sourceNodeId : Nat
  sourceSocket : String
  targetNodeId : Nat
  targetSocket : String
deriving DecidableEq, Repr

/-- Modelled from the spec: the error taxonomy of section 7. -/
inductive GraphError where
  | UnknownNodeType
  | NodeNotFound
  | SocketNotFound
  | SocketKindMismatch
  | InputSocketAlreadyConnected
  | WouldCreateCycle
  | ConnectionNotFound
  | NodeProcessFailed (nodeId : Nat) (cause : String)
deriving DecidableEq, Repr

/-- Modelled from the spec: the state of the Scheduler (section 4.2), the dirty
set, kept as a list without repetition. -/
structure Scheduler where
  dirty : List Nat
deriving DecidableEq, Repr

/-- Modelled from the spec: the NodeGraph (section 3): the nodes and connections
it owns, the counters from which identifiers are assigned, the registry it looks
node types up in and the scheduler it notifies. The class is only
forward-declared in Node.hpp. -/
structure NodeGraph where
  registry : NodeRegistry
  nodes : List NodeEntry
  connections : List Connection
  nextNodeId : Nat
  nextConnectionId : Nat
  scheduler : Scheduler
deriving DecidableEq, Repr

/-- Modelled from the spec: the empty graph over a registry. -/
def NodeGraph.empty (registry : NodeRegistry) : NodeGraph :=
  { registry := registry, nodes := [], connections := [], nextNodeId := 0,
    nextConnectionId := 0, scheduler := ⟨[]⟩ }

/-- Modelled from the spec: the directed graph induced by the connections
(section 4.2), one edge source node → target node per connection. -/
def NodeGraph.edges (g : NodeGraph) : List (Nat × Nat) :=
  g.connections.map (fun c => (c.sourceNodeId, c.targetNodeId))

/-- Modelled from the spec: search for a path of one or more edges from `u` to
`v`. Each step follows an edge that leaves `u` and goes on without the edges
that leave `u`; the fuel bounds the depth. The spec names no algorithm. -/
def reachFuel : Nat → List (Nat × Nat) → Nat → Nat → Bool
  | 0, _, _, _ => false
  | fuel + 1, es, u, v =>
    es.any (fun e => e.1 == u &&
      (e.2 == v || reachFuel fuel (es.filter (fun d => d.1 != u)) e.2 v))

/-- Modelled from the spec: `v` is downstream of `u`, that is reachable from `u`
via outgoing edges (section 4.2). -/
def reach (es : List (Nat × Nat)) (u v : Nat) : Bool := reachFuel es.length es u v

/-- Modelled from the spec: cycle detection (sections 4.1 and 4.2): some edge
is a loop or its target reaches its source. -/
def hasCycle (es : List (Nat × Nat)) : Bool :=
  es.any (fun e => e.1 == e.2 || reach es e.2 e.1)

/-- Modelled from the spec: the downstream consumers of a node (section 4.2). -/
def downstream (es : List (Nat × Nat)) (n : Nat) : List Nat :=
  (es.map Prod.snd).filter (fun v => reach es n v)

/-- Modelled from the spec: adding nodes to the dirty set; a node that is in
the set already is not added again. -/
def addDirty (dirty : List Nat) (ns : List Nat) : List Nat :=
  ns.foldl (fun d n => if n ∈ d then d else d ++ [n]) dirty

/-- Modelled from the spec: `markDirty(nodeId)` (section 4.2) adds the node and
every node downstream of it to the dirty set. -/
def Scheduler.markDirty (g : NodeGraph) (nodeId : Nat) : NodeGraph :=
  { g with scheduler := ⟨addDirty g.scheduler.dirty (nodeId :: downstream g.edges nodeId)⟩ }

/-- Modelled from the spec: the node with a given identifier, if present. -/
def NodeGraph.findNode (g : NodeGraph) (nodeId : Nat) : Option NodeEntry :=
  g.nodes.find? (fun n => n.id == nodeId)

/-- Modelled from the spec: the socket of a node with a given direction and
name, as the registry declares it for the node's type (section 3). -/
def NodeGraph.findSocket (g : NodeGraph) (n : NodeEntry) (dir : Direction) (socket : String) :
    Option SocketSchema :=
  match g.registry.lookup n.typeId with
  | none => none
  | some t => t.sockets.find? (fun s => s.direction == dir && s.name == socket)

/-- Modelled from the spec: `addNode(typeId, optional initial data) -> nodeId`
(section 4.1): registry lookup, then the node is stored under the next
identifier; `UnknownNodeType` when the type is not registered. -/
def NodeGraph.addNode (g : NodeGraph) (typeId : String) (data : Option String) :
    Except GraphError (Nat × NodeGraph) :=
  match g.registry.lookup typeId with
  | none => .error .UnknownNodeType
  | some _ =>
    .ok (g.nextNodeId,
      { g with nodes := g.nodes ++ [{ id := g.nextNodeId, typeId := typeId, data := data }]
               nextNodeId := g.nextNodeId + 1 })

/-- Modelled from the spec: `removeNode(nodeId)` (section 4.1): `NodeNotFound`
when absent; otherwise the node and every connection touching it are removed,
the node leaves the dirty set and the nodes that were downstream of it are
marked dirty. -/
def NodeGraph.removeNode (g : NodeGraph) (nodeId : Nat) : Except GraphError NodeGraph :=
  match g.findNode nodeId with
  | none => .error .NodeNotFound
  | some _ =>
    let down := (downstream g.edges nodeId).filter (fun v => v != nodeId)
    .ok { g with
      nodes := g.nodes.filter (fun n => n.id != nodeId)
      connections := g.connections.filter
        (fun c => c.sourceNodeId != nodeId && c.targetNodeId != nodeId)
      scheduler := ⟨addDirty (g.scheduler.dirty.filter (fun v => v != nodeId)) down⟩ }

/-- Modelled from the spec: `addConnection(fromNodeId, fromSocket, toNodeId,
toSocket)` (section 4.1). All validation comes before the mutation (section 7).
The spec fixes no order among the validations, but both in section 4.1 and in
section 8 a request whose edge makes the dependency graph cyclic fails with
`WouldCreateCycle`, so that test is made first; the other tests follow in the
order in which the spec lists their errors. On success the connection is stored
under the next connection identifier and the target node is marked dirty. -/
def NodeGraph.addConnection (g : NodeGraph) (fromNodeId : Nat) (fromSocket : String)
    (toNodeId : Nat) (toSocket : String) : Except GraphError (Nat × NodeGraph) :=
  if hasCycle ((fromNodeId, toNodeId) :: g.edges) then .error .WouldCreateCycle
  else
    match g.findNode fromNodeId, g.findNode toNodeId with
    | some src, some dst =>
      match g.findSocket src .output fromSocket, g.findSocket dst .input toSocket with
      | some so, some si =>
        if so.kind != si.kind then .error .SocketKindMismatch
        else if g.connections.any
            (fun c => c.targetNodeId == toNodeId && c.targetSocket == toSocket) then
          .error .InputSocketAlreadyConnected
        else
          .ok (g.nextConnectionId,
            Scheduler.markDirty
              { g with
                connections := g.connections ++
                  [{ id := g.nextConnectionId, sourceNodeId := fromNodeId,
                     sourceSocket := fromSocket, targetNodeId := toNodeId,
                     targetSocket := toSocket }]
                nextConnectionId := g.nextConnectionId + 1 }
              toNodeId)
      | _, _ => .error .SocketNotFound
    | _, _ => .error .NodeNotFound

/-- Modelled from the spec: `removeConnection(connectionId)` (section 4.1):
`ConnectionNotFound` when absent; otherwise the connection is removed and its
target node is marked dirty. -/
def NodeGraph.removeConnection (g : NodeGraph) (connectionId : Nat) :
    Except GraphError NodeGraph :=
  match g.connections.find? (fun c => c.id == connectionId) with
  | none => .error .ConnectionNotFound
  | some c =>
    .ok (Scheduler.markDirty
      { g with connections := g.connections.filter (fun d => d.id != connectionId) }
      c.targetNodeId)

/-- Modelled from the spec: the four structural requests (sections 4.1 and 4.4). -/
inductive GraphOp where
  | addNode (typeId : String) (data : Option String)
  | removeNode (nodeId : Nat)
  | addConnection (fromNodeId : Nat) (fromSocket : String) (toNodeId : Nat) (toSocket : String)
  | removeConnection (connectionId : Nat)
deriving DecidableEq, Repr

/-- Modelled from the spec: one structural request applied to the graph. -/
def NodeGraph.applyOp (g : NodeGraph) : GraphOp → Except GraphError NodeGraph
  | .addNode typeId data => (g.addNode typeId data).map Prod.snd
  | .removeNode nodeId => g.removeNode nodeId
  | .addConnection f fs t ts => (g.addConnection f fs t ts).map Prod.snd
  | .removeConnection c => g.removeConnection c

/-- Modelled from the spec: a sequence of valid requests: each one is applied to
the graph the one before it left; the first request that fails ends the run with
its error. -/
def NodeGraph.applyOps (g : NodeGraph) : List GraphOp → Except GraphError NodeGraph
  | [] => .ok g
  | op :: ops =>
    match g.applyOp op with
    | .error e => .error e
    | .ok g1 => g1.applyOps ops

/-- Modelled from the spec: the outbound messages of the MessageRouter (section 4.4). -/
inductive Outbound where
  | GraphChanged (nodes : List NodeEntry) (connections : List Connection)
  | NodeMessage (nodeId : Nat) (payload : String)
  | Error (kind : GraphError) (request : GraphOp)
deriving DecidableEq, Repr

/-- Modelled from the spec: the MessageRouter handling one structural request
(sections 4.4 and 6): on success the new graph and a `GraphChanged` notification,
on failure the graph as it was and one `Error` reply that names the request. -/
def MessageRouter.handle (g : NodeGraph) (request : GraphOp) : NodeGraph × Outbound :=
  match g.applyOp request with
  | .ok g1 => (g1, .GraphChanged g1.nodes g1.connections)
  | .error kind => (g, .Error kind request)

/-- Modelled from the spec: the fault of section 4.2, a cycle met while ordering. -/
inductive SchedulerFault where
  | cycleDetected
deriving DecidableEq, Repr

/-- Modelled from the spec: a pending node is ready when no pending node is
upstream of it (section 4.2). -/
def isReady (es : List (Nat × Nat)) (pending : List Nat) (v : Nat) : Bool :=
  pending.all (fun u => !reach es u v)

/-- Modelled from the spec: the least identifier of a list, for the tie-break of section 4.2. -/
def leastOf : List Nat → Option Nat
  | [] => none
  | x :: xs =>
    match leastOf xs with
    | none => some x
    | some y => some (if x ≤ y then x else y)

/-- Modelled from the spec: the ordering loop of `computeExecutionOrder`
(section 4.2): as long as nodes are pending, the ready node with the least
identifier is emitted and leaves the pending nodes; when nodes are pending and
none is ready, there is a cycle. The fuel bounds the number of rounds. -/
def orderFuel : Nat → List (Nat × Nat) → List Nat → Except SchedulerFault (List Nat)
  | _, _, [] => .ok []
  | 0, _, _ :: _ => .error .cycleDetected
  | fuel + 1, es, p :: ps =>
    match leastOf ((p :: ps).filter (isReady es (p :: ps))) with
    | none => .error .cycleDetected
    | some v =>
      match orderFuel fuel es ((p :: ps).filter (fun u => u != v)) with
      | .error f => .error f
      | .ok rest => .ok (v :: rest)

/-- Modelled from the spec: `computeExecutionOrder()` (section 4.2): the dirty
set in an order in which every node comes after its upstream dependencies, ties
broken by ascending node identifier. -/
def Scheduler.computeExecutionOrder (g : NodeGraph) : Except SchedulerFault (List Nat) :=
  orderFuel g.scheduler.dirty.length g.edges g.scheduler.dirty

/-- Registry of the example scenario of the specification (section 8), with a
two-input adder added. -/
def demoRegistry : NodeRegistry :=
  [ { typeId := "constant", sockets := [⟨"output", .output, "number"⟩] },
    { typeId := "double",
      sockets := [⟨"input", .input, "number"⟩, ⟨"output", .output, "number"⟩] },
    { typeId := "add",
      sockets := [⟨"a", .input, "number"⟩, ⟨"b", .input, "number"⟩,
        ⟨"output", .output, "number"⟩] } ]

/-- Requests that build the diamond A→B, A→C, B→D, C→D with D = 0, B = 1, C = 2, A = 3. -/
def diamondOps : List GraphOp :=
  [ .addNode "add" none, .addNode "double" none, .addNode "double" none,
    .addNode "constant" (some "5"),
    .addConnection 3 "output" 2 "input", .addConnection 3 "output" 1 "input",
    .addConnection 2 "output" 0 "a", .addConnection 1 "output" 0 "b" ]

/-- The graph that `diamondOps` builds from the empty graph. -/
def diamondGraph : NodeGraph :=
  { registry := demoRegistry
    nodes := [⟨0, "add", none⟩, ⟨1, "double", none⟩, ⟨2, "double", none⟩,
      ⟨3, "constant", some "5"⟩]
    connections := [⟨0, 3, "output", 2, "input"⟩, ⟨1, 3, "output", 1, "input"⟩,
      ⟨2, 2, "output", 0, "a"⟩, ⟨3, 1, "output", 0, "b"⟩]
    nextNodeId := 4
    nextConnectionId := 4
    scheduler := ⟨[2, 1, 0]⟩ }

/-- Requests that build a chain, then take a connection and a node away again. -/
def editOps : List GraphOp :=
  [ .addNode "constant" none, .addNode "double" none, .addNode "double" none,
    .addConnection 0 "output" 1 "input", .addConnection 1 "output" 2 "input",
    .removeConnection 0, .addConnection 0 "output" 1 "input", .removeNode 1 ]

/-- The graph that `editOps` builds from the empty graph. -/
def editedGraph : NodeGraph :=
  { registry := demoRegistry
    nodes := [⟨0, "constant", none⟩, ⟨2, "double", none⟩]
    connections := []
    nextNodeId := 3
    nextConnectionId := 3
    scheduler := ⟨[2]⟩ }

/-- A chain 0 → 1 → 2 of three `double` nodes. -/
def chainGraph : NodeGraph :=
  { registry := demoRegistry
    nodes := [⟨0, "double", none⟩, ⟨1, "double", none⟩, ⟨2, "double", none⟩]
    connections := [⟨0, 0, "output", 1, "input"⟩, ⟨1, 1, "output", 2, "input"⟩]
    nextNodeId := 3
    nextConnectionId := 2
    scheduler := ⟨[1, 2]⟩ }

/-- Every connection joins two nodes that are present. -/
def NodeGraph.NoDangling (g : NodeGraph) : Prop :=
  ∀ c ∈ g.connections,
    (∃ n ∈ g.nodes, n.id = c.sourceNodeId) ∧ (∃ n ∈ g.nodes, n.id = c.targetNodeId)

/-- The connections that arrive at input socket `socket` of node `nodeId`. -/
def NodeGraph.incoming (g : NodeGraph) (nodeId : Nat) (socket : String) : List Connection :=
  g.connections.filter (fun c => c.targetNodeId == nodeId && c.targetSocket == socket)

/-- Every input socket has at most one incoming connection. -/
def NodeGraph.SingleIncoming (g : NodeGraph) : Prop :=
  ∀ (nodeId : Nat) (socket : String), (g.incoming nodeId socket).length ≤ 1

/-- Edge relation of a dependency graph. -/
def Edge (es : List (Nat × Nat)) (a b : Nat) : Prop := (a, b) ∈ es

/-- A dependency graph has a cycle when some node reaches itself along one or more edges. -/
def HasCycle (es : List (Nat × Nat)) : Prop := ∃ v, Relation.TransGen (Edge es) v v

/-- What an execution order of the pending nodes has to satisfy: it lists
the pending nodes, each once; a node comes after the pending nodes upstream of
it; and each position holds the least identifier among the pending nodes that
are not listed before it while all pending nodes upstream of them are. -/
structure IsExecutionOrder (es : List (Nat × Nat)) (pending order : List Nat) : Prop where
  mem_iff : ∀ x, x ∈ order ↔ x ∈ pending
  nodup : order.Nodup
  upstream_first : ∀ u v, u ∈ pending → v ∈ pending → Relation.TransGen (Edge es) u v →
    order.indexOf u < order.indexOf v
  least_ready : ∀ (i : Nat) (x : Nat), order[i]? = some x → ∀ w ∈ pending,
    w ∉ order.take i → (∀ u ∈ pending, Relation.TransGen (Edge es) u w → u ∈ order.take i) →
    x ≤ w

end csl.nodeeditor

/-! ## Part 2: theorems -/

namespace csl.nodeeditor

/-- C1: for a node class that does not override `process()`, calling `process()`
any number of times leaves the node's identifier and graph reference unchanged
and emits no message; the state is the one before the calls. -/
theorem process_default_noop (cls : NodeClass) (h : cls.process = Node.process)
    (n : Nat) (w : NodeEnv) :
    ((cls.process)^[n] w).self.mID = w.self.mID ∧
    ((cls.process)^[n] w).self.mGraph = w.self.mGraph ∧
    ((cls.process)^[n] w).outbox = w.outbox ∧
    (cls.process)^[n] w = w := by
  have key : (cls.process)^[n] w = w := by
    rw [h]
    induction n with
    | zero => rfl
    | succ k ih => rw [Function.iterate_succ_apply]; exact ih
  rw [key]
  exact ⟨rfl, rfl, rfl, rfl⟩

/-- Witness for C1: the class that overrides `onMessage` only, run three times
on node 7 of graph 0 with one message already sent. -/
theorem process_default_noop_witness :
    echoNodeClass.process = Node.process ∧
    ((echoNodeClass.process)^[3] ⟨⟨7, some 0⟩, [(7, "a")]⟩).self.mID = 7 ∧
    ((echoNodeClass.process)^[3] ⟨⟨7, some 0⟩, [(7, "a")]⟩).self.mGraph = some 0 ∧
    ((echoNodeClass.process)^[3] ⟨⟨7, some 0⟩, [(7, "a")]⟩).outbox = [(7, "a")] ∧
    (echoNodeClass.process)^[3] ⟨⟨7, some 0⟩, [(7, "a")]⟩ = ⟨⟨7, some 0⟩, [(7, "a")]⟩ :=
  ⟨rfl, process_default_noop echoNodeClass rfl 3 ⟨⟨7, some 0⟩, [(7, "a")]⟩⟩

/-- C2: for a node class that does not override `onMessage()` and for every
payload, `onMessage(payload)` leaves the node's identifier and graph reference
unchanged and emits no message. -/
theorem onMessage_default_noop (cls : NodeClass) (h : cls.onMessage = Node.onMessage)
    (payload : String) (w : NodeEnv) :
    (cls.onMessage payload w).self.mID = w.self.mID ∧
    (cls.onMessage payload w).self.mGraph = w.self.mGraph ∧
    (cls.onMessage payload w).outbox = w.outbox := by
  rw [h]
  exact ⟨rfl, rfl, rfl⟩

/-- Witness for C2: the class that overrides `process` only, sent the payload
`"x"` on node 7 of graph 0. -/
theorem onMessage_default_noop_witness :
    tickNodeClass.onMessage = Node.onMessage ∧
    (tickNodeClass.onMessage "x" ⟨⟨7, some 0⟩, []⟩).self.mID = 7 ∧
    (tickNodeClass.onMessage "x" ⟨⟨7, some 0⟩, []⟩).self.mGraph = some 0 ∧
    (tickNodeClass.onMessage "x" ⟨⟨7, some 0⟩, []⟩).outbox = [] :=
  ⟨rfl, onMessage_default_noop tickNodeClass rfl "x" ⟨⟨7, some 0⟩, []⟩⟩

end csl.nodeeditor

namespace cs.graphics

/-- The magnitude of a finite binary32 value is at most that of `0x7F7FFFFF`. -/
theorem Float32.magnitude_le_max (f : Float32) (h : f.exponent ≠ 255) :
    f.magnitude ≤ (2 ^ 24 - 1) * 2 ^ 253 := by
  have hfrac : f.fraction < 2 ^ 23 := Nat.mod_lt _ (by norm_num)
  have hexp : f.exponent < 2 ^ 8 := Nat.mod_lt _ (by norm_num)
  unfold Float32.magnitude
  split
  · calc f.fraction ≤ (2 ^ 24 - 1) * 1 := by omega
      _ ≤ (2 ^ 24 - 1) * 2 ^ 253 := Nat.mul_le_mul_left _ (Nat.one_le_two_pow)
  · have h1 : 2 ^ 23 + f.fraction ≤ 2 ^ 24 - 1 := by omega
    have h2 : 2 ^ (f.exponent - 1) ≤ 2 ^ 253 :=
      Nat.pow_le_pow_right (by norm_num) (by omega)
    exact Nat.mul_le_mul h1 h2

/-- The scaled value of `numeric_limits_float_max`. -/
theorem numeric_limits_float_max_scaled :
    numeric_limits_float_max.scaled = (((2 ^ 24 - 1) * 2 ^ 253 : Nat) : Int) := by
  decide

/-- The scaled value of `numeric_limits_float_lowest`. -/
theorem numeric_limits_float_lowest_scaled :
    numeric_limits_float_lowest.scaled = - (((2 ^ 24 - 1) * 2 ^ 253 : Nat) : Int) := by
  decide

/-- Every finite binary32 value lies between `lowest()` and `max()`. -/
theorem Float32.finite_between (f : Float32) (h : f.isFinite = true) :
    numeric_limits_float_lowest.scaled ≤ f.scaled ∧
    f.scaled ≤ numeric_limits_float_max.scaled := by
  have hexp : f.exponent ≠ 255 := by
    simp only [Float32.isFinite, Bool.and_eq_true, bne_iff_ne, ne_eq] at h
    exact h.2
  have hm : (f.magnitude : Int) ≤ (((2 ^ 24 - 1) * 2 ^ 253 : Nat) : Int) :=
    Int.ofNat_le.mpr (f.magnitude_le_max hexp)
  have h0 : (0 : Int) ≤ (f.magnitude : Int) := Int.ofNat_nonneg _
  rw [numeric_limits_float_max_scaled, numeric_limits_float_lowest_scaled]
  unfold Float32.scaled
  split <;> constructor <;> omega

/-- C8: for every bounding box passed in, `SetupGLNode::GetBoundingBox` returns
true and overwrites the bounds with minimum `(lowest, lowest, lowest)` and
maximum `(max, max, max)`; the result is the same for every box passed in, and
`lowest` and `max` are finite values that bound every finite float from below
and from above. -/
theorem GetBoundingBox_sets_extreme_bounds (box : VistaBoundingBox) :
    (SetupGLNode.GetBoundingBox box).1 = true ∧
    (SetupGLNode.GetBoundingBox box).2.m_v3Min =
      (numeric_limits_float_lowest, numeric_limits_float_lowest, numeric_limits_float_lowest) ∧
    (SetupGLNode.GetBoundingBox box).2.m_v3Max =
      (numeric_limits_float_max, numeric_limits_float_max, numeric_limits_float_max) ∧
    (∀ other : VistaBoundingBox,
      SetupGLNode.GetBoundingBox other = SetupGLNode.GetBoundingBox box) ∧
    numeric_limits_float_lowest.isFinite = true ∧
    numeric_limits_float_max.isFinite = true ∧
    (∀ f : Float32, f.isFinite = true →
      numeric_limits_float_lowest.scaled ≤ f.scaled ∧
      f.scaled ≤ numeric_limits_float_max.scaled) :=
  ⟨rfl, rfl, rfl, fun _ => rfl, by decide, by decide, Float32.finite_between⟩

/-- The clear depth `-1.0f` that the code asks for is clamped to 0. -/
theorem clampd_neg_one : clampd (-1) = 0 := by
  unfold clampd
  norm_num

/-- Closed form of the state that `SetupGLNode::Do` leaves. -/
theorem SetupGLNode.Do_eq (s : GLState) :
    SetupGLNode.Do s = (true,
      { depthFunc := GL_GEQUAL
        clearDepth := 0
        depthWriteMask := s.depthWriteMask
        depthBuffer :=
          if s.depthWriteMask then s.depthBuffer.map (fun _ => 0) else s.depthBuffer
        capabilities :=
          if GL_CULL_FACE ∈ s.capabilities then s.capabilities
          else GL_CULL_FACE :: s.capabilities
        cullFaceMode := GL_BACK
        frontFace := GL_CW }) := by
  have hbit : ¬ (GL_DEPTH_BUFFER_BIT &&& GL_DEPTH_BUFFER_BIT = 0) := by decide
  unfold SetupGLNode.Do glFrontFace glCullFace glEnable glClear glClearDepth glDepthFunc
  simp only [if_neg hbit, clampd_neg_one]
  by_cases hc : GL_CULL_FACE ∈ s.capabilities <;> cases hm : s.depthWriteMask <;>
    simp [hc, hm]

/-- C9, as amended: for every prior OpenGL state, `SetupGLNode::Do` returns true
and leaves the depth function `GL_GEQUAL`, the clear depth 0 (the value `-1.0f`
that the code passes, clamped to the range from 0 to 1), face culling enabled
with `GL_BACK` culled and the front-face winding `GL_CW`; these values do not
depend on the prior state, and running it a second time changes nothing. -/
theorem Do_sets_clamped_depth_state (s : GLState) :
    (SetupGLNode.Do s).1 = true ∧
    (SetupGLNode.Do s).2.depthFunc = GL_GEQUAL ∧
    (SetupGLNode.Do s).2.clearDepth = 0 ∧
    GL_CULL_FACE ∈ (SetupGLNode.Do s).2.capabilities ∧
    (SetupGLNode.Do s).2.cullFaceMode = GL_BACK ∧
    (SetupGLNode.Do s).2.frontFace = GL_CW ∧
    SetupGLNode.Do (SetupGLNode.Do s).2 = SetupGLNode.Do s := by
  have hcap : GL_CULL_FACE ∈ (SetupGLNode.Do s).2.capabilities := by
    rw [SetupGLNode.Do_eq]
    by_cases hc : GL_CULL_FACE ∈ s.capabilities
    · simp only [if_pos hc]; exact hc
    · simp only [if_neg hc]; exact List.mem_cons_self _ _
  refine ⟨?_, ?_, ?_, hcap, ?_, ?_, ?_⟩
  · rw [SetupGLNode.Do_eq]
  · rw [SetupGLNode.Do_eq]
  · rw [SetupGLNode.Do_eq]
  · rw [SetupGLNode.Do_eq]
  · rw [SetupGLNode.Do_eq]
  · rw [SetupGLNode.Do_eq (SetupGLNode.Do s).2, if_pos hcap]
    rw [SetupGLNode.Do_eq s]
    cases hm : s.depthWriteMask <;> simp [List.map_map]

/-- Counterexample to C9 as stated: run on the initial OpenGL state,
`SetupGLNode::Do` leaves the clear depth 0, which is not `-1`. -/
theorem Do_clear_depth_not_minus_one :
    (SetupGLNode.Do initialGLState).2.clearDepth = 0 ∧
    (SetupGLNode.Do initialGLState).2.clearDepth ≠ -1 := by
  have h : (SetupGLNode.Do initialGLState).2.clearDepth = 0 := by
    rw [SetupGLNode.Do_eq]
  refine ⟨h, ?_⟩
  rw [h]
  norm_num

end cs.graphics

namespace csl.nodeeditor

theorem Edge.of_filter {es : List (Nat × Nat)} {p : Nat × Nat → Bool} {a b : Nat}
    (h : Edge (es.filter p) a b) : Edge es a b :=
  (List.mem_filter.mp h).1

theorem transGen_of_filter {es : List (Nat × Nat)} {p : Nat × Nat → Bool} {a b : Nat}
    (h : Relation.TransGen (Edge (es.filter p)) a b) : Relation.TransGen (Edge es) a b :=
  Relation.TransGen.mono (fun _ _ h => Edge.of_filter h) h

theorem reachFuel_sound (fuel : Nat) : ∀ (es : List (Nat × Nat)) (u v : Nat),
    reachFuel fuel es u v = true → Relation.TransGen (Edge es) u v := by
  induction fuel with
  | zero => intro es u v h; simp [reachFuel] at h
  | succ n ih =>
    intro es u v h
    simp only [reachFuel, List.any_eq_true, Bool.and_eq_true, Bool.or_eq_true, beq_iff_eq] at h
    obtain ⟨⟨a, b⟩, hmem, hau, hrest⟩ := h
    simp only at hau hrest
    subst hau
    have hedge : Edge es a b := hmem
    rcases hrest with hbv | hrec
    · subst hbv; exact Relation.TransGen.single hedge
    · exact Relation.TransGen.head hedge (transGen_of_filter (ih _ _ _ hrec))

theorem path_split (es : List (Nat × Nat)) (u v : Nat) (a : Nat)
    (h : Relation.TransGen (Edge es) a v) :
    Relation.TransGen (Edge (es.filter (fun d => d.1 != u))) a v ∨
    ∃ b, Edge es u b ∧ (b = v ∨ Relation.TransGen (Edge (es.filter (fun d => d.1 != u))) b v) := by
  induction h using Relation.TransGen.head_induction_on with
  | @base a hav =>
    by_cases hau : a = u
    · subst hau; exact Or.inr ⟨v, hav, Or.inl rfl⟩
    · left
      refine Relation.TransGen.single (List.mem_filter.mpr ⟨hav, ?_⟩)
      simpa using hau
  | @ih a c hac _ ih =>
    rcases ih with hleft | hright
    · by_cases hau : a = u
      · subst hau; exact Or.inr ⟨c, hac, Or.inr hleft⟩
      · left
        refine Relation.TransGen.head (List.mem_filter.mpr ⟨hac, ?_⟩) hleft
        simpa using hau
    · exact Or.inr hright

theorem no_edge_from_filtered (es : List (Nat × Nat)) (u b : Nat) :
    ¬ Edge (es.filter (fun d => d.1 != u)) u b := by
  intro h
  have := (List.mem_filter.mp h).2
  simp at this

theorem first_edge {es : List (Nat × Nat)} {a v : Nat} (h : Relation.TransGen (Edge es) a v) :
    ∃ b, Edge es a b := by
  induction h using Relation.TransGen.head_induction_on with
  | base hav => exact ⟨_, hav⟩
  | ih hac _ _ => exact ⟨_, hac⟩

theorem reachFuel_complete (fuel : Nat) : ∀ (es : List (Nat × Nat)) (u v : Nat),
    es.length ≤ fuel → Relation.TransGen (Edge es) u v → reachFuel fuel es u v = true := by
  induction fuel with
  | zero =>
    intro es u v hlen h
    obtain ⟨b, hb⟩ := first_edge h
    have : es = [] := List.length_eq_zero.mp (Nat.le_zero.mp hlen)
    subst this
    exact absurd hb (List.not_mem_nil _)
  | succ n ih =>
    intro es u v hlen h
    rcases path_split es u v u h with hleft | ⟨b, hub, hrest⟩
    · obtain ⟨b, hb⟩ := first_edge hleft
      exact absurd hb (no_edge_from_filtered es u b)
    · simp only [reachFuel, List.any_eq_true, Bool.and_eq_true, Bool.or_eq_true, beq_iff_eq]
      refine ⟨(u, b), hub, rfl, ?_⟩
      rcases hrest with hbv | hpath
      · exact Or.inl hbv
      · right
        apply ih _ _ _ _ hpath
        have hlt : (es.filter (fun d => d.1 != u)).length < es.length := by
          apply List.length_filter_lt_length_iff_exists.mpr
          exact ⟨(u, b), hub, by simp⟩
        omega

theorem reach_iff (es : List (Nat × Nat)) (u v : Nat) :
    reach es u v = true ↔ Relation.TransGen (Edge es) u v :=
  ⟨reachFuel_sound _ es u v, reachFuel_complete _ es u v (Nat.le_refl _)⟩

theorem hasCycle_iff (es : List (Nat × Nat)) : hasCycle es = true ↔ HasCycle es := by
  constructor
  · intro h
    simp only [hasCycle, List.any_eq_true, Bool.or_eq_true, beq_iff_eq] at h
    obtain ⟨⟨a, b⟩, hmem, hab | hr⟩ := h
    · simp only at hab
      subst hab
      exact ⟨a, Relation.TransGen.single hmem⟩
    · exact ⟨a, Relation.TransGen.head hmem ((reach_iff es b a).mp hr)⟩
  · rintro ⟨v, hv⟩
    simp only [hasCycle, List.any_eq_true, Bool.or_eq_true, beq_iff_eq]
    rcases Relation.TransGen.head'_iff.mp hv with ⟨c, hvc, hcv⟩
    refine ⟨(v, c), hvc, ?_⟩
    rcases Relation.reflTransGen_iff_eq_or_transGen.mp hcv with heq | htr
    · exact Or.inl heq
    · exact Or.inr ((reach_iff es c v).mpr htr)

end csl.nodeeditor

namespace csl.nodeeditor

theorem Scheduler.markDirty_nodes (g : NodeGraph) (n : Nat) :
    (Scheduler.markDirty g n).nodes = g.nodes := rfl

theorem Scheduler.markDirty_connections (g : NodeGraph) (n : Nat) :
    (Scheduler.markDirty g n).connections = g.connections := rfl

theorem NodeGraph.findNode_some {g : NodeGraph} {nodeId : Nat} {n : NodeEntry}
    (h : g.findNode nodeId = some n) : n ∈ g.nodes ∧ n.id = nodeId := by
  unfold NodeGraph.findNode at h
  refine ⟨List.mem_of_find?_eq_some h, ?_⟩
  have := List.find?_some h
  simpa using this

theorem NodeGraph.addNode_inv {g g1 : NodeGraph} {typeId : String} {data : Option String}
    {id : Nat} (h : g.addNode typeId data = .ok (id, g1))
    (hd : g.NoDangling) (hs : g.SingleIncoming) : g1.NoDangling ∧ g1.SingleIncoming := by
  unfold NodeGraph.addNode at h
  split at h
  · cases h
  · injection h with h
    injection h with _ h
    subst h
    constructor
    · intro c hc
      obtain ⟨⟨n, hn, hn1⟩, ⟨m, hm, hm1⟩⟩ := hd c hc
      exact ⟨⟨n, List.mem_append_left _ hn, hn1⟩, ⟨m, List.mem_append_left _ hm, hm1⟩⟩
    · exact hs

theorem NodeGraph.removeNode_inv {g g1 : NodeGraph} {nodeId : Nat}
    (h : g.removeNode nodeId = .ok g1)
    (hd : g.NoDangling) (hs : g.SingleIncoming) : g1.NoDangling ∧ g1.SingleIncoming := by
  unfold NodeGraph.removeNode at h
  split at h
  · cases h
  · injection h with h
    subst h
    constructor
    · intro c hc
      simp only [List.mem_filter, Bool.and_eq_true, bne_iff_ne, ne_eq] at hc
      obtain ⟨hc, hsrc, htgt⟩ := hc
      obtain ⟨⟨n, hn, hn1⟩, ⟨m, hm, hm1⟩⟩ := hd c hc
      refine ⟨⟨n, ?_, hn1⟩, ⟨m, ?_, hm1⟩⟩
      · simp only [List.mem_filter, bne_iff_ne, ne_eq]
        exact ⟨hn, by rw [hn1]; exact hsrc⟩
      · simp only [List.mem_filter, bne_iff_ne, ne_eq]
        exact ⟨hm, by rw [hm1]; exact htgt⟩
    · intro n s
      refine le_trans ?_ (hs n s)
      unfold NodeGraph.incoming
      exact List.Sublist.length_le (List.Sublist.filter _ (List.filter_sublist _))

theorem NodeGraph.removeConnection_inv {g g1 : NodeGraph} {connectionId : Nat}
    (h : g.removeConnection connectionId = .ok g1)
    (hd : g.NoDangling) (hs : g.SingleIncoming) : g1.NoDangling ∧ g1.SingleIncoming := by
  unfold NodeGraph.removeConnection at h
  split at h
  · cases h
  · injection h with h
    subst h
    constructor
    · intro c hc
      rw [Scheduler.markDirty_connections] at hc
      rw [Scheduler.markDirty_nodes]
      exact hd c (List.mem_filter.mp hc).1
    · intro n s
      refine le_trans ?_ (hs n s)
      unfold NodeGraph.incoming
      rw [Scheduler.markDirty_connections]
      exact List.Sublist.length_le (List.Sublist.filter _ (List.filter_sublist _))

theorem NodeGraph.addConnection_inv {g g1 : NodeGraph} {f t : Nat} {fs ts : String} {id : Nat}
    (h : g.addConnection f fs t ts = .ok (id, g1))
    (hd : g.NoDangling) (hs : g.SingleIncoming) : g1.NoDangling ∧ g1.SingleIncoming := by
  unfold NodeGraph.addConnection at h
  split at h
  · cases h
  · split at h
    · rename_i src dst hsrc hdst
      split at h
      · split at h
        · cases h
        · split at h
          · cases h
          · rename_i hfree
            injection h with h
            injection h with _ h
            subst h
            obtain ⟨hsrcmem, hsrcid⟩ := NodeGraph.findNode_some hsrc
            obtain ⟨hdstmem, hdstid⟩ := NodeGraph.findNode_some hdst
            constructor
            · intro c hc
              rw [Scheduler.markDirty_connections] at hc
              rw [Scheduler.markDirty_nodes]
              rcases List.mem_append.mp hc with hold | hnew
              · exact hd c hold
              · rw [List.mem_singleton] at hnew
                subst hnew
                exact ⟨⟨src, hsrcmem, hsrcid⟩, ⟨dst, hdstmem, hdstid⟩⟩
            · intro n s
              unfold NodeGraph.incoming
              rw [Scheduler.markDirty_connections]
              simp only [List.filter_append, List.length_append]
              by_cases hns : t = n ∧ ts = s
              · obtain ⟨rfl, rfl⟩ := hns
                have hnone : g.connections.filter
                    (fun c => c.targetNodeId == t && c.targetSocket == ts) = [] := by
                  rw [List.filter_eq_nil_iff]
                  intro c hc hp
                  apply hfree
                  exact List.any_eq_true.mpr ⟨c, hc, hp⟩
                rw [hnone]
                simp
              · have hs1 := hs n s
                unfold NodeGraph.incoming at hs1
                have : List.filter (fun c => c.targetNodeId == n && c.targetSocket == s)
                    [({ id := g.nextConnectionId, sourceNodeId := f, sourceSocket := fs,
                        targetNodeId := t, targetSocket := ts } : Connection)] = [] := by
                  rw [List.filter_eq_nil_iff]
                  intro c hc hp
                  rw [List.mem_singleton] at hc
                  subst hc
                  simp only [Bool.and_eq_true, beq_iff_eq] at hp
                  exact hns hp
                rw [this]
                simpa using hs1
      · cases h
    · cases h

theorem NodeGraph.applyOp_inv {g g1 : NodeGraph} {op : GraphOp}
    (h : g.applyOp op = .ok g1)
    (hd : g.NoDangling) (hs : g.SingleIncoming) : g1.NoDangling ∧ g1.SingleIncoming := by
  cases op with
  | addNode typeId data =>
    simp only [NodeGraph.applyOp] at h
    cases hr : g.addNode typeId data with
    | error e => rw [hr] at h; cases h
    | ok r =>
      rw [hr] at h
      obtain ⟨id, g2⟩ := r
      injection h with h
      simp only at h
      subst h
      exact NodeGraph.addNode_inv hr hd hs
  | removeNode nodeId => exact NodeGraph.removeNode_inv h hd hs
  | addConnection f fs t ts =>
    simp only [NodeGraph.applyOp] at h
    cases hr : g.addConnection f fs t ts with
    | error e => rw [hr] at h; cases h
    | ok r =>
      rw [hr] at h
      obtain ⟨id, g2⟩ := r
      injection h with h
      simp only at h
      subst h
      exact NodeGraph.addConnection_inv hr hd hs
  | removeConnection c => exact NodeGraph.removeConnection_inv h hd hs

theorem NodeGraph.applyOps_inv (ops : List GraphOp) : ∀ {g g1 : NodeGraph},
    g.applyOps ops = .ok g1 → g.NoDangling → g.SingleIncoming →
    g1.NoDangling ∧ g1.SingleIncoming := by
  induction ops with
  | nil =>
    intro g g1 h hd hs
    simp only [NodeGraph.applyOps] at h
    injection h with h
    subst h
    exact ⟨hd, hs⟩
  | cons op ops ih =>
    intro g g1 h hd hs
    simp only [NodeGraph.applyOps] at h
    cases hr : g.applyOp op with
    | error e => rw [hr] at h; cases h
    | ok g2 =>
      rw [hr] at h
      obtain ⟨hd2, hs2⟩ := NodeGraph.applyOp_inv hr hd hs
      exact ih h hd2 hs2

theorem NodeGraph.empty_inv (registry : NodeRegistry) :
    (NodeGraph.empty registry).NoDangling ∧ (NodeGraph.empty registry).SingleIncoming :=
  ⟨fun c hc => absurd hc (List.not_mem_nil c), fun _ _ => Nat.zero_le _⟩

end csl.nodeeditor

namespace csl.nodeeditor

theorem leastOf_eq_none {l : List Nat} (h : leastOf l = none) : l = [] := by
  cases l with
  | nil => rfl
  | cons x xs =>
    simp only [leastOf] at h
    split at h <;> cases h

theorem leastOf_some : ∀ {l : List Nat} {v : Nat}, leastOf l = some v →
    v ∈ l ∧ ∀ w ∈ l, v ≤ w := by
  intro l
  induction l with
  | nil => intro v h; cases h
  | cons x xs ih =>
    intro v h
    simp only [leastOf] at h
    split at h
    · rename_i hnone
      injection h with h
      subst h
      have := leastOf_eq_none hnone
      subst this
      exact ⟨List.mem_cons_self _ _, fun w hw => by
        rw [List.mem_singleton] at hw; omega⟩
    · rename_i y hy
      injection h with h
      obtain ⟨hymem, hyle⟩ := ih hy
      by_cases hxy : x ≤ y
      · rw [if_pos hxy] at h
        subst h
        refine ⟨List.mem_cons_self _ _, fun w hw => ?_⟩
        rcases List.mem_cons.mp hw with rfl | hw
        · exact Nat.le_refl _
        · exact Nat.le_trans hxy (hyle w hw)
      · rw [if_neg hxy] at h
        subst h
        refine ⟨List.mem_cons_of_mem _ hymem, fun w hw => ?_⟩
        rcases List.mem_cons.mp hw with rfl | hw
        · omega
        · exact hyle w hw

theorem isReady_iff (es : List (Nat × Nat)) (pending : List Nat) (v : Nat) :
    isReady es pending v = true ↔ ∀ u ∈ pending, ¬ Relation.TransGen (Edge es) u v := by
  unfold isReady
  rw [List.all_eq_true]
  constructor
  · intro h u hu hp
    have := h u hu
    rw [(reach_iff es u v).mpr hp] at this
    cases this
  · intro h u hu
    cases hr : reach es u v with
    | false => rfl
    | true => exact absurd ((reach_iff es u v).mp hr) (h u hu)

theorem exists_ready (es : List (Nat × Nat)) (hac : ¬ HasCycle es) :
    ∀ (pending : List Nat), pending ≠ [] →
      ∃ v ∈ pending, ∀ u ∈ pending, ¬ Relation.TransGen (Edge es) u v := by
  intro pending
  induction pending with
  | nil => intro h; exact absurd rfl h
  | cons a rest ih =>
    intro _
    by_cases hrest : rest = []
    · subst hrest
      refine ⟨a, List.mem_cons_self _ _, fun u hu hp => ?_⟩
      rw [List.mem_singleton] at hu
      subst hu
      exact hac ⟨u, hp⟩
    · obtain ⟨v, hv, hmin⟩ := ih hrest
      by_cases hav : Relation.TransGen (Edge es) a v
      · refine ⟨a, List.mem_cons_self _ _, fun u hu hp => ?_⟩
        rcases List.mem_cons.mp hu with rfl | hu
        · exact hac ⟨u, hp⟩
        · exact hmin u hu (Relation.TransGen.trans hp hav)
      · refine ⟨v, List.mem_cons_of_mem _ hv, fun u hu hp => ?_⟩
        rcases List.mem_cons.mp hu with rfl | hu
        · exact hav hp
        · exact hmin u hu hp

theorem orderFuel_spec (es : List (Nat × Nat)) (hac : ¬ HasCycle es) (fuel : Nat) :
    ∀ (pending : List Nat), pending.length ≤ fuel →
      ∃ order, orderFuel fuel es pending = .ok order ∧ IsExecutionOrder es pending order := by
  induction fuel with
  | zero =>
    intro pending hlen
    have : pending = [] := List.length_eq_zero.mp (Nat.le_zero.mp hlen)
    subst this
    refine ⟨[], rfl, ?_⟩
    exact ⟨fun x => Iff.rfl, List.nodup_nil, fun u v hu => absurd hu (List.not_mem_nil _),
      fun i x hx => by simp at hx⟩
  | succ n ih =>
    intro pending hlen
    cases pending with
    | nil =>
      refine ⟨[], rfl, ?_⟩
      exact ⟨fun x => Iff.rfl, List.nodup_nil, fun u v hu => absurd hu (List.not_mem_nil _),
        fun i x hx => by simp at hx⟩
    | cons p ps =>
      obtain ⟨r, hr, hrmin⟩ := exists_ready es hac (p :: ps) (List.cons_ne_nil _ _)
      have hrready : isReady es (p :: ps) r = true := (isReady_iff es _ r).mpr hrmin
      cases hl : leastOf ((p :: ps).filter (isReady es (p :: ps))) with
      | none =>
        have := leastOf_eq_none hl
        have hmem : r ∈ (p :: ps).filter (isReady es (p :: ps)) :=
          List.mem_filter.mpr ⟨hr, hrready⟩
        rw [this] at hmem
        exact absurd hmem (List.not_mem_nil _)
      | some v =>
        obtain ⟨hvmem, hvle⟩ := leastOf_some hl
        obtain ⟨hvP, hvready⟩ := List.mem_filter.mp hvmem
        have hvmin := (isReady_iff es _ v).mp hvready
        have hlt : ((p :: ps).filter (fun u => u != v)).length < (p :: ps).length := by
          apply List.length_filter_lt_length_iff_exists.mpr
          exact ⟨v, hvP, by simp⟩
        obtain ⟨rest, hrest, hspec⟩ := ih ((p :: ps).filter (fun u => u != v)) (by omega)
        have hmemrest : ∀ x, x ∈ rest ↔ x ∈ (p :: ps) ∧ x ≠ v := by
          intro x
          rw [hspec.mem_iff, List.mem_filter]
          simp
        have hvrest : v ∉ rest := fun h => ((hmemrest v).mp h).2 rfl
        refine ⟨v :: rest, ?_, ?_⟩
        · simp only [orderFuel, hl, hrest]
        · constructor
          · intro x
            rw [List.mem_cons, hmemrest]
            constructor
            · rintro (rfl | ⟨hx, _⟩)
              · exact hvP
              · exact hx
            · intro hx
              by_cases hxv : x = v
              · exact Or.inl hxv
              · exact Or.inr ⟨hx, hxv⟩
          · exact List.nodup_cons.mpr ⟨hvrest, hspec.nodup⟩
          · intro u w hu hw hp
            have hwv : w ≠ v := by
              rintro rfl
              exact hvmin u hu hp
            have hwP : w ∈ (p :: ps).filter (fun u => u != v) :=
              List.mem_filter.mpr ⟨hw, by simpa using hwv⟩
            by_cases huv : u = v
            · subst huv
              rw [List.indexOf_cons_self, List.indexOf_cons_ne _ (Ne.symm hwv)]
              exact Nat.succ_pos _
            · have huP : u ∈ (p :: ps).filter (fun u => u != v) :=
                List.mem_filter.mpr ⟨hu, by simpa using huv⟩
              rw [List.indexOf_cons_ne _ (Ne.symm huv), List.indexOf_cons_ne _ (Ne.symm hwv)]
              exact Nat.succ_lt_succ (hspec.upstream_first u w huP hwP hp)
          · intro i x hx w hw hnot hall
            cases i with
            | zero =>
              simp only [List.getElem?_cons_zero, Option.some.injEq] at hx
              subst hx
              apply hvle
              refine List.mem_filter.mpr ⟨hw, (isReady_iff es _ w).mpr ?_⟩
              intro u hu hp
              have := hall u hu hp
              simp at this
            | succ j =>
              simp only [List.getElem?_cons_succ] at hx
              simp only [List.take_succ_cons, List.mem_cons, not_or] at hnot
              have hwP : w ∈ (p :: ps).filter (fun u => u != v) :=
                List.mem_filter.mpr ⟨hw, by simpa using hnot.1⟩
              apply hspec.least_ready j x hx w hwP hnot.2
              intro u hu hp
              obtain ⟨huP, huv⟩ := List.mem_filter.mp hu
              have := hall u huP hp
              simp only [List.take_succ_cons, List.mem_cons] at this
              rcases this with rfl | h
              · simp at huv
              · exact h

end csl.nodeeditor

namespace csl.nodeeditor

theorem HasCycle.of_subset {es ds : List (Nat × Nat)} (hsub : ∀ e, e ∈ es → e ∈ ds)
    (h : HasCycle es) : HasCycle ds := by
  obtain ⟨v, hv⟩ := h
  exact ⟨v, Relation.TransGen.mono (fun a b hab => hsub (a, b) hab) hv⟩

/-- C5: for every sequence of valid addNode, addConnection, removeNode and
removeConnection requests applied to the empty graph, every connection of the
resulting graph joins two nodes that are present, and every input socket has at
most one incoming connection. -/
theorem applyOps_keeps_graph_invariants (registry : NodeRegistry) (ops : List GraphOp)
    (g : NodeGraph) (h : (NodeGraph.empty registry).applyOps ops = .ok g) :
    (∀ c ∈ g.connections,
      (∃ n ∈ g.nodes, n.id = c.sourceNodeId) ∧ (∃ n ∈ g.nodes, n.id = c.targetNodeId)) ∧
    (∀ (nodeId : Nat) (socket : String),
      (g.connections.filter
        (fun c => c.targetNodeId == nodeId && c.targetSocket == socket)).length ≤ 1) :=
  NodeGraph.applyOps_inv ops h (NodeGraph.empty_inv registry).1 (NodeGraph.empty_inv registry).2

/-- Witness for C5: eight valid requests, among them a removeConnection and a
removeNode, applied to the empty graph. -/
theorem applyOps_keeps_graph_invariants_witness :
    (NodeGraph.empty demoRegistry).applyOps editOps = .ok editedGraph ∧
    (∀ c ∈ editedGraph.connections,
      (∃ n ∈ editedGraph.nodes, n.id = c.sourceNodeId) ∧
      (∃ n ∈ editedGraph.nodes, n.id = c.targetNodeId)) ∧
    (∀ (nodeId : Nat) (socket : String),
      (editedGraph.connections.filter
        (fun c => c.targetNodeId == nodeId && c.targetSocket == socket)).length ≤ 1) :=
  ⟨by decide, applyOps_keeps_graph_invariants demoRegistry editOps editedGraph (by decide)⟩

/-- C6: when the edge of an addConnection request makes the dependency graph
cyclic, addConnection fails with WouldCreateCycle, and the router answers with
that error and keeps the graph as it was. -/
theorem addConnection_cycle_rejected (g : NodeGraph) (fromNodeId : Nat) (fromSocket : String)
    (toNodeId : Nat) (toSocket : String)
    (h : HasCycle (g.edges ++ [(fromNodeId, toNodeId)])) :
    g.addConnection fromNodeId fromSocket toNodeId toSocket = .error .WouldCreateCycle ∧
    MessageRouter.handle g (.addConnection fromNodeId fromSocket toNodeId toSocket) =
      (g, .Error .WouldCreateCycle
        (.addConnection fromNodeId fromSocket toNodeId toSocket)) := by
  have hc : hasCycle ((fromNodeId, toNodeId) :: g.edges) = true := by
    rw [hasCycle_iff]
    refine HasCycle.of_subset ?_ h
    intro e he
    rcases List.mem_append.mp he with he | he
    · exact List.mem_cons_of_mem _ he
    · rw [List.mem_singleton] at he
      subst he
      exact List.mem_cons_self _ _
  have hadd : g.addConnection fromNodeId fromSocket toNodeId toSocket =
      .error .WouldCreateCycle := by
    unfold NodeGraph.addConnection
    rw [if_pos hc]
  refine ⟨hadd, ?_⟩
  unfold MessageRouter.handle
  simp only [NodeGraph.applyOp, hadd]
  rfl

/-- Witness for C6: in the chain 0 → 1 → 2 the request to connect the output of
node 2 to the input of node 0 closes a cycle. -/
theorem addConnection_cycle_rejected_witness :
    HasCycle (chainGraph.edges ++ [(2, 0)]) ∧
    chainGraph.addConnection 2 "output" 0 "input" = .error .WouldCreateCycle ∧
    MessageRouter.handle chainGraph (.addConnection 2 "output" 0 "input") =
      (chainGraph, .Error .WouldCreateCycle (.addConnection 2 "output" 0 "input")) :=
  ⟨(hasCycle_iff _).mp (by decide),
   addConnection_cycle_rejected chainGraph 2 "output" 0 "input"
     ((hasCycle_iff _).mp (by decide))⟩

/-- C7: on an acyclic graph computeExecutionOrder returns the dirty set, each
node once, every node after all of its dirty upstream dependencies, and at each
position the node with the least identifier among the dirty nodes whose upstream
dependencies were all returned before; when the graph holds a diamond A→B, A→C,
B→D, C→D and these four nodes are the dirty set, A comes first and D comes after
B and after C. -/
theorem computeExecutionOrder_topological (g : NodeGraph) (hac : ¬ HasCycle g.edges) :
    ∃ order, Scheduler.computeExecutionOrder g = .ok order ∧
      (∀ n, n ∈ order ↔ n ∈ g.scheduler.dirty) ∧
      order.Nodup ∧
      (∀ u v, u ∈ g.scheduler.dirty → v ∈ g.scheduler.dirty →
        Relation.TransGen (Edge g.edges) u v → order.indexOf u < order.indexOf v) ∧
      (∀ (i x : Nat), order[i]? = some x → ∀ w ∈ g.scheduler.dirty, w ∉ order.take i →
        (∀ u ∈ g.scheduler.dirty, Relation.TransGen (Edge g.edges) u w → u ∈ order.take i) →
        x ≤ w) ∧
      (∀ a b c d : Nat, (a, b) ∈ g.edges → (a, c) ∈ g.edges → (b, d) ∈ g.edges →
        (c, d) ∈ g.edges → (∀ n, n ∈ g.scheduler.dirty ↔ n = a ∨ n = b ∨ n = c ∨ n = d) →
        order.head? = some a ∧ order.indexOf b < order.indexOf d ∧
        order.indexOf c < order.indexOf d) := by
  obtain ⟨order, hrun, hspec⟩ :=
    orderFuel_spec g.edges hac g.scheduler.dirty.length g.scheduler.dirty (Nat.le_refl _)
  refine ⟨order, hrun, hspec.mem_iff, hspec.nodup, hspec.upstream_first, hspec.least_ready, ?_⟩
  intro a b c d hab hac1 hbd hcd hdirty
  have ha : a ∈ g.scheduler.dirty := (hdirty a).mpr (Or.inl rfl)
  have hb : b ∈ g.scheduler.dirty := (hdirty b).mpr (Or.inr (Or.inl rfl))
  have hc : c ∈ g.scheduler.dirty := (hdirty c).mpr (Or.inr (Or.inr (Or.inl rfl)))
  have hd : d ∈ g.scheduler.dirty := (hdirty d).mpr (Or.inr (Or.inr (Or.inr rfl)))
  have pab : Relation.TransGen (Edge g.edges) a b := Relation.TransGen.single hab
  have pac : Relation.TransGen (Edge g.edges) a c := Relation.TransGen.single hac1
  have pbd : Relation.TransGen (Edge g.edges) b d := Relation.TransGen.single hbd
  have pcd : Relation.TransGen (Edge g.edges) c d := Relation.TransGen.single hcd
  have pad : Relation.TransGen (Edge g.edges) a d := Relation.TransGen.trans pab pbd
  have iab := hspec.upstream_first a b ha hb pab
  have iac := hspec.upstream_first a c ha hc pac
  have iad := hspec.upstream_first a d ha hd pad
  refine ⟨?_, hspec.upstream_first b d hb hd pbd, hspec.upstream_first c d hc hd pcd⟩
  cases horder : order with
  | nil =>
    have := (hspec.mem_iff a).mpr ha
    rw [horder] at this
    exact absurd this (List.not_mem_nil _)
  | cons x tl =>
    rw [horder] at iab iac iad
    have hx : x ∈ g.scheduler.dirty := by
      apply (hspec.mem_iff x).mp
      rw [horder]
      exact List.mem_cons_self _ _
    simp only [List.head?_cons, Option.some.injEq]
    rcases (hdirty x).mp hx with rfl | rfl | rfl | rfl
    · rfl
    · rw [List.indexOf_cons_self] at iab; omega
    · rw [List.indexOf_cons_self] at iac; omega
    · rw [List.indexOf_cons_self] at iad; omega

/-- Witness for C7: the diamond with A = 3, B = 1, C = 2, D = 0, all four nodes
dirty: the order is A, B, C, D, that is 3, 1, 2, 0. -/
theorem computeExecutionOrder_topological_witness :
    (NodeGraph.empty demoRegistry).applyOps diamondOps = .ok diamondGraph ∧
    ¬ HasCycle (Scheduler.markDirty diamondGraph 3).edges ∧
    Scheduler.computeExecutionOrder (Scheduler.markDirty diamondGraph 3) = .ok [3, 1, 2, 0] ∧
    ∃ order, Scheduler.computeExecutionOrder (Scheduler.markDirty diamondGraph 3) = .ok order ∧
      (∀ n, n ∈ order ↔ n ∈ (Scheduler.markDirty diamondGraph 3).scheduler.dirty) ∧
      order.Nodup ∧
      (∀ u v, u ∈ (Scheduler.markDirty diamondGraph 3).scheduler.dirty →
        v ∈ (Scheduler.markDirty diamondGraph 3).scheduler.dirty →
        Relation.TransGen (Edge (Scheduler.markDirty diamondGraph 3).edges) u v →
        order.indexOf u < order.indexOf v) ∧
      (∀ (i x : Nat), order[i]? = some x →
        ∀ w ∈ (Scheduler.markDirty diamondGraph 3).scheduler.dirty, w ∉ order.take i →
        (∀ u ∈ (Scheduler.markDirty diamondGraph 3).scheduler.dirty,
          Relation.TransGen (Edge (Scheduler.markDirty diamondGraph 3).edges) u w →
          u ∈ order.take i) →
        x ≤ w) ∧
      (∀ a b c d : Nat, (a, b) ∈ (Scheduler.markDirty diamondGraph 3).edges →
        (a, c) ∈ (Scheduler.markDirty diamondGraph 3).edges →
        (b, d) ∈ (Scheduler.markDirty diamondGraph 3).edges →
        (c, d) ∈ (Scheduler.markDirty diamondGraph 3).edges →
        (∀ n, n ∈ (Scheduler.markDirty diamondGraph 3).scheduler.dirty ↔
          n = a ∨ n = b ∨ n = c ∨ n = d) →
        order.head? = some a ∧ order.indexOf b < order.indexOf d ∧
        order.indexOf c < order.indexOf d) :=
  ⟨by decide,
   fun h => absurd ((hasCycle_iff _).mpr h) (by decide),
   by decide,
   computeExecutionOrder_topological (Scheduler.markDirty diamondGraph 3)
     (fun h => absurd ((hasCycle_iff _).mpr h) (by decide))⟩

end csl.nodeeditor

